import Mathlib

/-!
# Verification of the Sigma-Zero chess tensor codec (`chess_tensor.py`)

Shallow embedding of the board-tensor encoder (`ChessTensor`) and the
move/action-index codec (`actionToTensor`, `tensorToAction`,
`actionsToTensor`) of `src/chess_tensor.py`, together with proofs of the
specification's testable properties.

Modelling conventions:
* `chess.Move` is a structure of `from_square`/`to_square` in `[0,64)`
  (python-chess square numbering: `square = rank*8 + file`) and an optional
  promotion piece number (python-chess: KNIGHT=2, BISHOP=3, ROOK=4, QUEEN=5).
* Colors are `Bool` (`chess.WHITE = true`, `chess.BLACK = false`).
* Python exceptions (`KeyError`, `IndexError`) are modelled by `Option`:
  `none` means the call raises.
* Python sequence indexing `s[i]` is modelled by `pyIdx`: a negative index
  wraps once from the end, an index out of `[-len, len)` raises.
* Probabilities / tensor entries are `ℚ` (stand-in for Python floats; the
  code only writes, adds and compares them against zero).
* A length-4672 torch vector is modelled by a function `Nat → ℚ` read on
  `[0, 8*8*73)`; `torch.nonzero` is `nonzeroIdx` (indices in ascending
  order, as torch returns them).
-/

/-- One 8×8 board plane of the (boolean-typed) representation tensor. -/
abbrev Plane := Fin 8 → Fin 8 → Bool

/-- `chess.Move`: from-square, to-square (python-chess numbering,
`square = rank*8 + file`), optional promotion piece number. -/
structure Move where
  from_square : Nat
  to_square : Nat
  promotion : Option Nat
deriving DecidableEq

/-- Python sequence indexing `l[i]`: non-negative indices are direct,
negative indices wrap once from the end, anything else raises
(`IndexError`, modelled as `none`). -/
def pyIdx {α : Type} (l : List α) (i : Int) : Option α :=
  if 0 ≤ i then l.get? i.toNat
  else if 0 ≤ i + l.length then l.get? (i + l.length).toNat
  else none

/-- File letter of `chess.FILE_NAMES` (`"abcdefgh"`). -/
def fileStr (n : Nat) : String :=
  match n with
  | 0 => "a" | 1 => "b" | 2 => "c" | 3 => "d"
  | 4 => "e" | 5 => "f" | 6 => "g" | _ => "h"

/-- Rank digit of `chess.RANK_NAMES` (`"12345678"`). -/
def rankStr (n : Nat) : String :=
  match n with
  | 0 => "1" | 1 => "2" | 2 => "3" | 3 => "4"
  | 4 => "5" | 5 => "6" | 6 => "7" | _ => "8"

/-- Promotion suffix of a UCI move string (python-chess `piece_symbol`). -/
def promoStr : Option Nat → String
  | some 2 => "n"
  | some 3 => "b"
  | some 4 => "r"
  | some 5 => "q"
  | _ => ""

/-- UCI string from square numbers: python-chess `square_name` is
`FILE_NAMES[square % 8] + RANK_NAMES[square // 8]`. -/
def uciOf (fromSq toSq : Nat) (promo : Option Nat) : String :=
  fileStr (fromSq % 8) ++ rankStr (fromSq / 8) ++
    (fileStr (toSq % 8) ++ rankStr (toSq / 8)) ++ promoStr promo

/-- `move.uci()` of python-chess. -/
def Move.uci (m : Move) : String := uciOf m.from_square m.to_square m.promotion

/-- Row of a square in the mover's rotated frame (`actionToTensor`:
white `row = 7 - from_square//8`, black `row = from_square//8`). -/
def rotRow (c : Bool) (sq : Nat) : Nat := if c then 7 - sq / 8 else sq / 8

/-- Column of a square in the mover's rotated frame (`actionToTensor`:
white `col = from_square%8`, black `col = 7 - from_square%8`). -/
def rotCol (c : Bool) (sq : Nat) : Nat := if c then sq % 8 else 7 - sq % 8

/-- The `dir` dictionary of `actionToTensor`: keys are
`(Δcol sign, Δrow sign)`; a missing key raises (`none`). -/
def dirIndex : Int × Int → Option Nat
  | (0, -1) => some 0
  | (1, -1) => some 1
  | (1, 0) => some 2
  | (1, 1) => some 3
  | (0, 1) => some 4
  | (-1, 1) => some 5
  | (-1, 0) => some 6
  | (-1, -1) => some 7
  | _ => none

/-- The `knight_moves` dictionary of `actionToTensor`: keys are
`(Δcol, Δrow)`; a missing key raises (`none`). -/
def knightIndex : Int × Int → Option Nat
  | (1, -2) => some 0
  | (2, -1) => some 1
  | (2, 1) => some 2
  | (1, 2) => some 3
  | (-1, 2) => some 4
  | (-2, 1) => some 5
  | (-2, -1) => some 6
  | (-1, -2) => some 7
  | _ => none

/-- `check_polarity` of `actionToTensor`. -/
def checkPolarity (v : Int) : Int := if 0 < v then 1 else if v < 0 then -1 else 0

/-- `"nbr".index(move.uci()[-1])` under the guard that the last UCI
character is in `"nbr"` (square names end in a digit, so this happens
exactly for promotion piece knight/bishop/rook). -/
def promoIndex : Option Nat → Nat
  | some 2 => 0
  | some 3 => 1
  | _ => 2

/-- Body of `actionToTensor` on the rotated coordinates
`(row, col, toRow, toCol)` of the move: returns the flat index of the
single entry written, or `none` when the dictionary lookup raises.
The float test `abs(toRow-row)/abs(toCol-col) == 1` is modelled as
`|Δrow| = |Δcol|` (for the integer magnitudes involved the float
quotient is exactly 1 iff the magnitudes are equal; the division is
short-circuited away when `toCol == col`). -/
def encCore (row col toRow toCol : Nat) (promo : Option Nat) : Option Nat :=
  if toCol = col ∨ toRow = row ∨
      ((toRow : Int) - (row : Int)).natAbs = ((toCol : Int) - (col : Int)).natAbs then
    if promo = some 2 ∨ promo = some 3 ∨ promo = some 4 then
      -- underpromotion: move.uci()[-1] in "nbr"
      some ((64 + (promoIndex promo * 3 +
        (if col < toCol then 1 else if toCol < col then 2 else 0))) * 64 + row * 8 + col)
    else
      (dirIndex (checkPolarity ((toCol : Int) - (col : Int)),
                 checkPolarity ((toRow : Int) - (row : Int)))).map
        (fun d =>
          (d * 7 + (max ((toRow : Int) - (row : Int)).natAbs
                        ((toCol : Int) - (col : Int)).natAbs - 1)) * 64 + row * 8 + col)
  else
    (knightIndex ((toCol : Int) - (col : Int), (toRow : Int) - (row : Int))).map
      (fun k => (56 + k) * 64 + row * 8 + col)

/-- The flat index written by `actionToTensor(move, color, prob)`. -/
def actionToTensorIdx (m : Move) (c : Bool) : Option Nat :=
  encCore (rotRow c m.from_square) (rotCol c m.from_square)
    (rotRow c m.to_square) (rotCol c m.to_square) m.promotion

/-- The tensor `torch.zeros(8*8*73)` with `prob` written at `idx`. -/
def singleTensor (idx : Nat) (p : ℚ) : Nat → ℚ := fun i => if i = idx then p else 0

/-- `actionToTensor(move, color, prob)`: a zero vector of length
`8*8*73 = 4672` with `prob` written at the computed index (`none` when a
dictionary lookup raises). -/
def actionToTensor (m : Move) (c : Bool) (prob : ℚ) : Option (Nat → ℚ) :=
  (actionToTensorIdx m c).map (fun idx => singleTensor idx prob)

/-- The `dir` list of `tensorToAction` (`(x, y)` = `(Δcol, Δrow)`). -/
def dirList : List (Int × Int) :=
  [(0, -1), (1, -1), (1, 0), (1, 1), (0, 1), (-1, 1), (-1, 0), (-1, -1)]

/-- The `knight_moves` list of `tensorToAction`. -/
def knightList : List (Int × Int) :=
  [(1, -2), (2, -1), (2, 1), (1, 2), (-1, 2), (-2, 1), (-2, -1), (-1, -2)]

/-- File indices denoted by the `lettering` string of `tensorToAction`
(`"abcdefgh"`, reversed for black). -/
def letteringL (c : Bool) : List Nat :=
  if c then [0, 1, 2, 3, 4, 5, 6, 7] else [7, 6, 5, 4, 3, 2, 1, 0]

/-- Rank indices denoted by the `numbering` string of `tensorToAction`
(`"12345678"`, reversed for white). -/
def numberingL (c : Bool) : List Nat :=
  if c then [7, 6, 5, 4, 3, 2, 1, 0] else [0, 1, 2, 3, 4, 5, 6, 7]

/-- Destination `(toCol, toRow)` reconstructed by `tensorToAction` from a
flat index, in the mover's rotated frame (before any string indexing).
The in-range list reads `dir[plane//7]` / `knight_moves[plane-56]` are
`getD` since the subscript is provably in range in their branch. -/
def decodedDest (idx : Nat) : Int × Int :=
  if idx / 64 < 56 then
    (((idx % 64 % 8 : Nat) : Int) +
        (dirList.getD (idx / 64 / 7) (0, 0)).1 * (1 + ((idx / 64 % 7 : Nat) : Int)),
     ((idx % 64 / 8 : Nat) : Int) +
        (dirList.getD (idx / 64 / 7) (0, 0)).2 * (1 + ((idx / 64 % 7 : Nat) : Int)))
  else if idx / 64 < 64 then
    (((idx % 64 % 8 : Nat) : Int) + (knightList.getD (idx / 64 - 56) (0, 0)).1,
     ((idx % 64 / 8 : Nat) : Int) + (knightList.getD (idx / 64 - 56) (0, 0)).2)
  else
    (if (idx / 64 - 64) % 3 = 1 then ((idx % 64 % 8 : Nat) : Int) + 1
     else if (idx / 64 - 64) % 3 = 2 then ((idx % 64 % 8 : Nat) : Int) - 1
     else ((idx % 64 % 8 : Nat) : Int),
     ((idx % 64 / 8 : Nat) : Int) - 1)

/-- Decoding of one nonzero index by `tensorToAction`.  The UCI string
`move_str` is assembled from `lettering`/`numbering` characters; via
`chess.Move.from_uci` it denotes the move with
`from_square = rank*8 + file`.  The queen-promotion side set is queried
with the same coordinate string plus `"q"`.  A string subscript out of
range raises (`none`); the promotion read `"nbr"[plane//3]` is `pyIdx`
on the piece numbers `[2,3,4]`. -/
def tensorToActionIdx (c : Bool) (qp : List String) (idx : Nat) : Option Move :=
  match pyIdx (letteringL c) ((idx % 64 % 8 : Nat) : Int),
        pyIdx (numberingL c) ((idx % 64 / 8 : Nat) : Int),
        pyIdx (letteringL c) (decodedDest idx).1,
        pyIdx (numberingL c) (decodedDest idx).2 with
  | some ff, some fr, some tf, some tr =>
    if idx / 64 < 56 then
      if uciOf (fr * 8 + ff) (tr * 8 + tf) (some 5) ∈ qp then
        some ⟨fr * 8 + ff, tr * 8 + tf, some 5⟩
      else
        some ⟨fr * 8 + ff, tr * 8 + tf, none⟩
    else if idx / 64 < 64 then
      some ⟨fr * 8 + ff, tr * 8 + tf, none⟩
    else
      (pyIdx [2, 3, 4] (((idx / 64 - 64) / 3 : Nat) : Int)).map
        (fun pc => ⟨fr * 8 + ff, tr * 8 + tf, some pc⟩)
  | _, _, _, _ => none

/-- `moves.nonzero()` over the length-4672 vector: indices of nonzero
entries in ascending order. -/
def nonzeroIdx (t : Nat → ℚ) : List Nat :=
  (List.range (8 * 8 * 73)).filter (fun i => t i ≠ 0)

/-- `tensorToAction(moves, color, queen_promotion)`: decode every nonzero
index; any raised exception aborts the whole call (`none`). -/
def tensorToAction (t : Nat → ℚ) (c : Bool) (qp : List String) : Option (List Move) :=
  (nonzeroIdx t).mapM (tensorToActionIdx c qp)

/-- `actionsToTensor(valid_moves, color)` with `valid_moves` given as a
weighted association list (the plain-list call site is the constant
weight 1).  Queen promotions are recorded in the `queen_promotion`
dictionary keyed by `str(move.uci())`; each move's single-entry tensor is
added into the accumulating action tensor. -/
def actionsToTensor (valid_moves : List (Move × ℚ)) (c : Bool) :
    Option ((Nat → ℚ) × List String) :=
  valid_moves.foldlM
    (fun acc mp =>
      (actionToTensor mp.1 c mp.2).map
        (fun t =>
          (fun i => acc.1 i + t i,
           if mp.1.promotion = some 5 then acc.2 ++ [mp.1.uci] else acc.2)))
    (fun _ => 0, [])

/-! ## Geometric shape of legal moves

The legal-move set itself lives in the external rules engine
(python-chess).  The predicates below capture, in the mover's rotated
frame, the displacement facts true of every legal chess move handed to
the codec; the round-trip and injectivity theorems are quantified over
them. -/

/-- Queen-line displacement: horizontal, vertical or exact diagonal,
nonzero (covers sliding moves, king moves, castling king hops, pawn
pushes and captures, and queen promotions). -/
def QueenLineShape (row col toRow toCol : Nat) : Prop :=
  ¬(toRow = row ∧ toCol = col) ∧
    (toCol = col ∨ toRow = row ∨
      ((toRow : Int) - (row : Int)).natAbs = ((toCol : Int) - (col : Int)).natAbs)

/-- Knight displacement: `(Δcol, Δrow)` is one of the 8 knight offsets. -/
def KnightShape (row col toRow toCol : Nat) : Prop :=
  ((toCol : Int) - (col : Int), (toRow : Int) - (row : Int)) ∈ knightList

/-- Promotion displacement in the mover's rotated frame: one step toward
row 0, file shift at most one. -/
def PromoShape (row col toRow toCol : Nat) : Prop :=
  (toRow : Int) = (row : Int) - 1 ∧ ((toCol : Int) - (col : Int)).natAbs ≤ 1

/-- Displacement facts of every legal chess move for mover `c`, in the
mover's rotated frame: squares on the board; an underpromotion is a
one-step pawn move toward the promotion rank; a queen promotion is
queen-line shaped; a non-promoting move is queen-line or knight shaped. -/
def LegalShapeFor (c : Bool) (m : Move) : Prop :=
  m.from_square < 64 ∧ m.to_square < 64 ∧
    (if m.promotion = none then
      QueenLineShape (rotRow c m.from_square) (rotCol c m.from_square)
          (rotRow c m.to_square) (rotCol c m.to_square) ∨
        KnightShape (rotRow c m.from_square) (rotCol c m.from_square)
          (rotRow c m.to_square) (rotCol c m.to_square)
    else if m.promotion = some 5 then
      QueenLineShape (rotRow c m.from_square) (rotCol c m.from_square)
        (rotRow c m.to_square) (rotCol c m.to_square)
    else
      (m.promotion = some 2 ∨ m.promotion = some 3 ∨ m.promotion = some 4) ∧
        PromoShape (rotRow c m.from_square) (rotCol c m.from_square)
          (rotRow c m.to_square) (rotCol c m.to_square))

/-- A move whose displacement is a valid piece movement (queen-line step
of distance 1–7, knight offset, or one-step underpromotion — the latter
being a distance-1 queen-line step), with a python-chess promotion
field. -/
def ValidDisplacement (c : Bool) (m : Move) : Prop :=
  m.from_square < 64 ∧ m.to_square < 64 ∧
    (m.promotion = none ∨ m.promotion = some 2 ∨ m.promotion = some 3 ∨
      m.promotion = some 4 ∨ m.promotion = some 5) ∧
    (QueenLineShape (rotRow c m.from_square) (rotCol c m.from_square)
        (rotRow c m.to_square) (rotCol c m.to_square) ∨
      KnightShape (rotRow c m.from_square) (rotCol c m.from_square)
        (rotRow c m.to_square) (rotCol c m.to_square))

/-- Correct queen-promotion side set for `m`: the set contains `m`'s
coordinate string with a `"q"` suffix exactly when `m` is a queen
promotion. -/
def QpCorrect (m : Move) (qp : List String) : Prop :=
  (uciOf m.from_square m.to_square (some 5) ∈ qp) ↔ m.promotion = some 5

instance (row col toRow toCol : Nat) : Decidable (QueenLineShape row col toRow toCol) := by
  unfold QueenLineShape; infer_instance

instance (row col toRow toCol : Nat) : Decidable (KnightShape row col toRow toCol) := by
  unfold KnightShape; infer_instance

instance (row col toRow toCol : Nat) : Decidable (PromoShape row col toRow toCol) := by
  unfold PromoShape; infer_instance

instance (c : Bool) (m : Move) : Decidable (LegalShapeFor c m) := by
  unfold LegalShapeFor; infer_instance

instance (c : Bool) (m : Move) : Decidable (ValidDisplacement c m) := by
  unfold ValidDisplacement; infer_instance

instance (m : Move) (qp : List String) : Decidable (QpCorrect m qp) := by
  unfold QpCorrect; infer_instance

/-! ## The `ChessTensor` state

The rules engine (python-chess `chess.Board`) is an external
collaborator: it is abstracted as an `Engine` over an opaque board type,
supplying exactly the queries `ChessTensor` makes.  The tensor surgery
on the 119-channel representations is the code under verification. -/

/-- The all-`False` plane (`torch.zeros(1,8,8, dtype=torch.bool)`). -/
def zeroPlane : Plane := fun _ _ => false

/-- The all-`True` plane (`torch.ones(1,8,8, dtype=torch.bool)`). -/
def onePlane : Plane := fun _ _ => true

/-- A flag broadcast as a full plane. -/
def boolPlane (b : Bool) : Plane := fun _ _ => b

/-- `torch.tensor([len(board.move_stack)], dtype=torch.bool)` broadcast
over 8×8: the ply count truncated to a boolean flag. -/
def totalMovesPlane (n : Nat) : Plane := boolPlane (decide (n ≠ 0))

/-- `torch.tensor([board.halfmove_clock], dtype=torch.bool)` broadcast
over 8×8: the no-progress count truncated to a boolean flag. -/
def noProgressPlane (n : Nat) : Plane := boolPlane (decide (n ≠ 0))

/-- The queries `ChessTensor` makes of the external python-chess board. -/
structure Engine (B : Type) where
  legalMoves : B → List Move
  push : B → Move → B
  boardTensor : B → List Plane
  isRepetition2 : B → Bool
  isRepetition3 : B → Bool
  moveStackLen : B → Nat
  halfmoveClock : B → Nat
  kingsideCastlingW : B → Bool
  queensideCastlingW : B → Bool
  kingsideCastlingB : B → Bool
  queensideCastlingB : B → Bool

/-- State owned by a `ChessTensor` instance: the board and the two
perspective tensors (channel lists; `representation` renamed
`whiteRep`). -/
structure CTState (B : Type) where
  board : B
  whiteRep : List Plane
  blackRep : List Plane

/-- `ChessTensor.start_board`: initial 119-channel tensors
(current 14-channel frame, `M*(T-1) = 98` zero history channels, 7 meta
planes; the black tensor swaps the two 6-channel piece groups and the
castling pairs and uses the black side-to-move plane). -/
def startBoardState {B : Type} (e : Engine B) (b0 : B) : CTState B :=
  { board := b0
    whiteRep :=
      (e.boardTensor b0 ++ [zeroPlane, zeroPlane]) ++
        List.replicate (14 * 7) zeroPlane ++
        [onePlane, zeroPlane, onePlane, onePlane, onePlane, onePlane, zeroPlane]
    blackRep :=
      (((e.boardTensor b0 ++ [zeroPlane, zeroPlane]).drop 6).take 6 ++
          (e.boardTensor b0 ++ [zeroPlane, zeroPlane]).take 6 ++ [zeroPlane, zeroPlane]) ++
        List.replicate (14 * 7) zeroPlane ++
        [zeroPlane, zeroPlane, onePlane, onePlane, onePlane, onePlane, zeroPlane] }

/-- `ChessTensor.move_piece`: validate against the legal-move set
(raising `ValueError("Invalid move")` before any mutation), then push the
move, build the new 14-channel frame and 7 meta planes, drop the last
`M + L = 21` channels of each perspective tensor and concatenate.  The
second component is the raised error, `none` on success. -/
def movePiece {B : Type} (e : Engine B) (st : CTState B) (m : Move) :
    CTState B × Option String :=
  if m ∈ e.legalMoves st.board then
    let b := e.push st.board m
    let current := e.boardTensor b ++
      [boolPlane (e.isRepetition2 b), boolPlane (e.isRepetition3 b)]
    let L := [onePlane, totalMovesPlane (e.moveStackLen b),
      boolPlane (e.kingsideCastlingW b), boolPlane (e.queensideCastlingW b),
      boolPlane (e.kingsideCastlingB b), boolPlane (e.queensideCastlingB b),
      noProgressPlane (e.halfmoveClock b)]
    let Lb := [zeroPlane, totalMovesPlane (e.moveStackLen b),
      boolPlane (e.kingsideCastlingB b), boolPlane (e.queensideCastlingB b),
      boolPlane (e.kingsideCastlingW b), boolPlane (e.queensideCastlingW b),
      noProgressPlane (e.halfmoveClock b)]
    ({ board := b
       whiteRep := current ++ st.whiteRep.take (st.whiteRep.length - 21) ++ L
       blackRep := (current.drop 6).take 6 ++ current.take 6 ++ current.drop 12 ++
         st.blackRep.take (st.blackRep.length - 21) ++ Lb },
     none)
  else
    (st, some "Invalid move")

/-- Apply a sequence of moves through `move_piece`, failing if any raises. -/
def applySeq {B : Type} (e : Engine B) : CTState B → List Move → Option (CTState B)
  | st, [] => some st
  | st, m :: ms =>
    match movePiece e st m with
    | (st', none) => applySeq e st' ms
    | (_, some _) => none

/-- History frame `j` of a perspective tensor: channels `[14*j, 14*j+14)`. -/
def frameAt (rep : List Plane) (j : Nat) : List Plane := (rep.drop (14 * j)).take 14

/-- An all-zero 14-channel history frame. -/
def zeroFrame : List Plane := List.replicate 14 zeroPlane

/-- `torch.flip(t, [1])` on a channel list: flip each plane along the
rank axis (`ChessTensor.get_representation`, white branch). -/
def flipRankTensor (rep : List Plane) : List Plane :=
  rep.map (fun p => fun r f => p ⟨7 - (r : Nat), by omega⟩ f)

/-- `torch.flip(t, [2])` on a channel list: flip each plane along the
file axis (`ChessTensor.get_representation`, black branch). -/
def flipFileTensor (rep : List Plane) : List Plane :=
  rep.map (fun p => fun r f => p r ⟨7 - (f : Nat), by omega⟩)

/-- `ChessTensor.get_representation`: the white perspective flips the
white tensor along the rank axis, the black perspective flips the black
tensor along the file axis (`turn` is the side to move of the board). -/
def getRep {B : Type} (turn : B → Bool) (st : CTState B) : List Plane :=
  if turn st.board then flipRankTensor st.whiteRep else flipFileTensor st.blackRep

/-! ## Helper lemmas for the codec proofs -/

theorem rotRow_lt (c : Bool) (s : Nat) (h : s < 64) : rotRow c s < 8 := by
  cases c <;> simp only [rotRow, if_true, if_false, Bool.false_eq_true] <;> omega

theorem rotCol_lt (c : Bool) (s : Nat) (h : s < 64) : rotCol c s < 8 := by
  cases c <;> simp only [rotCol, if_true, if_false, Bool.false_eq_true] <;> omega

/-- The `lettering` string read at a square's rotated column is the
square's file. -/
theorem pyIdx_lettering : ∀ (c : Bool) (s : Nat), s < 64 →
    pyIdx (letteringL c) ((rotCol c s : Nat) : Int) = some (s % 8) := by decide

/-- The `numbering` string read at a square's rotated row is the
square's rank. -/
theorem pyIdx_numbering : ∀ (c : Bool) (s : Nat), s < 64 →
    pyIdx (numberingL c) ((rotRow c s : Nat) : Int) = some (s / 8) := by decide

theorem checkPolarity_neg {a : Int} (h : a < 0) : checkPolarity a = -1 := by
  unfold checkPolarity
  rw [if_neg (by omega), if_pos h]

theorem checkPolarity_pos {a : Int} (h : 0 < a) : checkPolarity a = 1 := by
  unfold checkPolarity
  rw [if_pos h]

theorem checkPolarity_mul_natAbs (a : Int) : checkPolarity a * (a.natAbs : Int) = a := by
  rcases lt_trichotomy a 0 with h | h | h
  · rw [checkPolarity_neg h]; omega
  · subst h; rfl
  · rw [checkPolarity_pos h]; omega

/-- `sign(Δ) * max(|Δrow|,|Δcol|) = Δ` for a queen-line displacement. -/
theorem checkPolarity_mul_max (a b : Int) (h : a = 0 ∨ b = 0 ∨ a.natAbs = b.natAbs) :
    checkPolarity a * ((max a.natAbs b.natAbs : Nat) : Int) = a := by
  rcases h with h | h | h
  · subst h; simp [checkPolarity]
  · subst h
    simpa using checkPolarity_mul_natAbs a
  · rw [← h, max_self]
    exact checkPolarity_mul_natAbs a

/-- The sign pair of a nonzero displacement is a key of the `dir`
dictionary, and the `dir` list of the decoder inverts it. -/
theorem dirIndex_of_signs (a b : Int) (h : ¬(a = 0 ∧ b = 0)) :
    ∃ d, dirIndex (checkPolarity a, checkPolarity b) = some d ∧ d < 8 ∧
      dirList.getD d (0, 0) = (checkPolarity a, checkPolarity b) := by
  rcases lt_trichotomy a 0 with ha | ha | ha <;> rcases lt_trichotomy b 0 with hb | hb | hb
  · rw [checkPolarity_neg ha, checkPolarity_neg hb]; exact ⟨7, by decide, by decide, by decide⟩
  · subst hb; rw [checkPolarity_neg ha]; exact ⟨6, by decide, by decide, by decide⟩
  · rw [checkPolarity_neg ha, checkPolarity_pos hb]; exact ⟨5, by decide, by decide, by decide⟩
  · subst ha; rw [checkPolarity_neg hb]; exact ⟨0, by decide, by decide, by decide⟩
  · exact absurd ⟨ha, hb⟩ h
  · subst ha; rw [checkPolarity_pos hb]; exact ⟨4, by decide, by decide, by decide⟩
  · rw [checkPolarity_pos ha, checkPolarity_neg hb]; exact ⟨1, by decide, by decide, by decide⟩
  · subst hb; rw [checkPolarity_pos ha]; exact ⟨2, by decide, by decide, by decide⟩
  · rw [checkPolarity_pos ha, checkPolarity_pos hb]; exact ⟨3, by decide, by decide, by decide⟩

/-- A knight displacement is a key of the `knight_moves` dictionary, the
decoder's list inverts it, and it is not queen-line shaped. -/
theorem knight_facts (a b : Int) (h : (a, b) ∈ knightList) :
    ∃ k, knightIndex (a, b) = some k ∧ k < 8 ∧ knightList.getD k (0, 0) = (a, b) ∧
      a ≠ 0 ∧ b ≠ 0 ∧ b.natAbs ≠ a.natAbs := by
  simp only [knightList, List.mem_cons, List.not_mem_nil, or_false] at h
  rcases h with h | h | h | h | h | h | h | h <;>
    rw [Prod.mk.injEq] at h <;> obtain ⟨rfl, rfl⟩ := h
  · exact ⟨0, by decide, by decide, by decide, by decide, by decide, by decide⟩
  · exact ⟨1, by decide, by decide, by decide, by decide, by decide, by decide⟩
  · exact ⟨2, by decide, by decide, by decide, by decide, by decide, by decide⟩
  · exact ⟨3, by decide, by decide, by decide, by decide, by decide, by decide⟩
  · exact ⟨4, by decide, by decide, by decide, by decide, by decide, by decide⟩
  · exact ⟨5, by decide, by decide, by decide, by decide, by decide, by decide⟩
  · exact ⟨6, by decide, by decide, by decide, by decide, by decide, by decide⟩
  · exact ⟨7, by decide, by decide, by decide, by decide, by decide, by decide⟩

/-- `filter` of an exactly-one-hit predicate over `range`. -/
theorem filter_range_eq (n k : Nat) (h : k < n) (p : Nat → Bool)
    (hp : ∀ i, p i = true ↔ i = k) :
    (List.range n).filter p = [k] := by
  induction n with
  | zero => omega
  | succ n ih =>
    rw [List.range_succ, List.filter_append]
    by_cases hk : k < n
    · have hn : p n = false := by
        rw [← Bool.not_eq_true, hp]; omega
      rw [ih hk]
      simp [hn]
    · have hkn : k = n := by omega
      subst hkn
      have h1 : (List.range k).filter p = [] := by
        rw [List.filter_eq_nil_iff]
        intro a ha
        rw [List.mem_range] at ha
        rw [hp]; omega
      have h2 : p k = true := (hp k).mpr rfl
      rw [h1]
      simp [h2]

/-- The nonzero-index list of a single-entry tensor with nonzero weight. -/
theorem nonzeroIdx_single (idx : Nat) (p : ℚ) (hp : p ≠ 0) (h : idx < 8 * 8 * 73) :
    nonzeroIdx (singleTensor idx p) = [idx] := by
  unfold nonzeroIdx
  refine filter_range_eq _ _ h _ ?_
  intro i
  by_cases hi : i = idx <;> simp [singleTensor, hi, hp]

/-- The nonzero-index list of a single-entry tensor with weight `0` is empty. -/
theorem nonzeroIdx_single_zero (idx : Nat) : nonzeroIdx (singleTensor idx 0) = [] := by
  rw [nonzeroIdx, List.filter_eq_nil_iff]
  intro a _
  by_cases hi : a = idx <;> simp [singleTensor, hi]

set_option maxHeartbeats 1000000 in
/-- Queen-line moves (promotion queen or none) round-trip through the
codec; the queen promotion is re-attached from the side set. -/
theorem dec_enc_queen (c : Bool) (qp : List String) (fs ts : Nat) (promo : Option Nat)
    (hf : fs < 64) (ht : ts < 64)
    (hp : promo = none ∨ promo = some 5)
    (hqp : (uciOf fs ts (some 5) ∈ qp) ↔ promo = some 5)
    (hsh : QueenLineShape (rotRow c fs) (rotCol c fs) (rotRow c ts) (rotCol c ts)) :
    ∃ idx, encCore (rotRow c fs) (rotCol c fs) (rotRow c ts) (rotCol c ts) promo = some idx ∧
      idx < 4672 ∧ tensorToActionIdx c qp idx = some ⟨fs, ts, promo⟩ := by
  obtain ⟨hne, hline⟩ := hsh
  have hrecL := pyIdx_lettering c fs hf
  have hrecN := pyIdx_numbering c fs hf
  have hrecLt := pyIdx_lettering c ts ht
  have hrecNt := pyIdx_numbering c ts ht
  have hfs8 : fs / 8 * 8 + fs % 8 = fs := by omega
  have hts8 : ts / 8 * 8 + ts % 8 = ts := by omega
  have hr : rotRow c fs < 8 := rotRow_lt c fs hf
  have hco : rotCol c fs < 8 := rotCol_lt c fs hf
  have htr : rotRow c ts < 8 := rotRow_lt c ts ht
  have htc : rotCol c ts < 8 := rotCol_lt c ts ht
  generalize hR : rotRow c fs = r at *
  generalize hC : rotCol c fs = co at *
  generalize hTR : rotRow c ts = tr at *
  generalize hTC : rotCol c ts = tc at *
  have hnz : ¬(((tc : Int) - co) = 0 ∧ ((tr : Int) - r) = 0) := by
    rintro ⟨h1, h2⟩; exact hne ⟨by omega, by omega⟩
  obtain ⟨d, hd, hd8, hgetD⟩ := dirIndex_of_signs _ _ hnz
  have hline2 : ((tc : Int) - co = 0) ∨ ((tr : Int) - r = 0) ∨
      ((tr : Int) - r).natAbs = ((tc : Int) - co).natAbs := by omega
  unfold encCore
  rw [if_pos (by tauto)]
  rw [if_neg (by rcases hp with rfl | rfl <;> simp)]
  rw [hd, Option.map_some']
  refine ⟨_, rfl, by omega, ?_⟩
  have e1 : ((d * 7 + (max ((tr : Int) - r).natAbs ((tc : Int) - co).natAbs - 1)) * 64 +
      r * 8 + co) / 64 = d * 7 + (max ((tr : Int) - r).natAbs ((tc : Int) - co).natAbs - 1) := by
    omega
  have e2 : ((d * 7 + (max ((tr : Int) - r).natAbs ((tc : Int) - co).natAbs - 1)) * 64 +
      r * 8 + co) % 64 / 8 = r := by omega
  have e3 : ((d * 7 + (max ((tr : Int) - r).natAbs ((tc : Int) - co).natAbs - 1)) * 64 +
      r * 8 + co) % 64 % 8 = co := by omega
  have e4 : (d * 7 + (max ((tr : Int) - r).natAbs ((tc : Int) - co).natAbs - 1)) / 7 = d := by
    omega
  have e5 : (d * 7 + (max ((tr : Int) - r).natAbs ((tc : Int) - co).natAbs - 1)) % 7 =
      max ((tr : Int) - r).natAbs ((tc : Int) - co).natAbs - 1 := by omega
  have hdest : decodedDest ((d * 7 + (max ((tr : Int) - r).natAbs ((tc : Int) - co).natAbs - 1)) * 64 +
      r * 8 + co) = ((tc : Int), (tr : Int)) := by
    unfold decodedDest
    rw [e1, e2, e3, if_pos (by omega), e4, e5, hgetD]
    have hcast : (1 : Int) + ((max ((tr : Int) - r).natAbs ((tc : Int) - co).natAbs - 1 : Nat) : Int) =
        ((max ((tr : Int) - r).natAbs ((tc : Int) - co).natAbs : Nat) : Int) := by omega
    rw [hcast]
    have m1 : checkPolarity ((tc : Int) - co) *
        ((max ((tr : Int) - r).natAbs ((tc : Int) - co).natAbs : Nat) : Int) = (tc : Int) - co := by
      rw [max_comm]
      exact checkPolarity_mul_max _ _ (by omega)
    have m2 : checkPolarity ((tr : Int) - r) *
        ((max ((tr : Int) - r).natAbs ((tc : Int) - co).natAbs : Nat) : Int) = (tr : Int) - r :=
      checkPolarity_mul_max _ _ (by omega)
    rw [m1, m2]
    simp only [Prod.mk.injEq]
    constructor <;> omega
  unfold tensorToActionIdx
  rw [e2, e3, hdest]
  rw [hrecL, hrecN]
  simp only
  rw [hrecLt, hrecNt]
  simp only
  rw [if_pos (by omega : ((d * 7 + (max ((tr : Int) - r).natAbs ((tc : Int) - co).natAbs - 1)) * 64 +
      r * 8 + co) / 64 < 56)]
  rw [hfs8, hts8]
  rcases hp with rfl | rfl
  · rw [if_neg (fun hmem => by simpa using hqp.mp hmem)]
  · rw [if_pos (hqp.mpr rfl)]

set_option maxHeartbeats 1000000 in
/-- Knight moves round-trip through the codec. -/
theorem dec_enc_knight (c : Bool) (qp : List String) (fs ts : Nat)
    (hf : fs < 64) (ht : ts < 64)
    (hsh : KnightShape (rotRow c fs) (rotCol c fs) (rotRow c ts) (rotCol c ts)) :
    ∃ idx, encCore (rotRow c fs) (rotCol c fs) (rotRow c ts) (rotCol c ts) none = some idx ∧
      idx < 4672 ∧ tensorToActionIdx c qp idx = some ⟨fs, ts, none⟩ := by
  have hrecL := pyIdx_lettering c fs hf
  have hrecN := pyIdx_numbering c fs hf
  have hrecLt := pyIdx_lettering c ts ht
  have hrecNt := pyIdx_numbering c ts ht
  have hfs8 : fs / 8 * 8 + fs % 8 = fs := by omega
  have hts8 : ts / 8 * 8 + ts % 8 = ts := by omega
  have hr : rotRow c fs < 8 := rotRow_lt c fs hf
  have hco : rotCol c fs < 8 := rotCol_lt c fs hf
  have htr : rotRow c ts < 8 := rotRow_lt c ts ht
  have htc : rotCol c ts < 8 := rotCol_lt c ts ht
  generalize hR : rotRow c fs = r at *
  generalize hC : rotCol c fs = co at *
  generalize hTR : rotRow c ts = tr at *
  generalize hTC : rotCol c ts = tc at *
  unfold KnightShape at hsh
  obtain ⟨k, hk, hk8, hgetD, ha, hb, hab⟩ := knight_facts _ _ hsh
  unfold encCore
  rw [if_neg (by omega)]
  rw [hk, Option.map_some']
  refine ⟨_, rfl, by omega, ?_⟩
  have e1 : ((56 + k) * 64 + r * 8 + co) / 64 = 56 + k := by omega
  have e2 : ((56 + k) * 64 + r * 8 + co) % 64 / 8 = r := by omega
  have e3 : ((56 + k) * 64 + r * 8 + co) % 64 % 8 = co := by omega
  have e4 : 56 + k - 56 = k := by omega
  have hdest : decodedDest ((56 + k) * 64 + r * 8 + co) = ((tc : Int), (tr : Int)) := by
    unfold decodedDest
    rw [e1, e2, e3, if_neg (by omega), if_pos (by omega), e4, hgetD]
    simp only [Prod.mk.injEq]
    constructor <;> omega
  unfold tensorToActionIdx
  rw [e2, e3, hdest]
  rw [hrecL, hrecN]
  simp only
  rw [hrecLt, hrecNt]
  simp only
  rw [e1, if_neg (by omega), if_pos (by omega)]
  rw [hfs8, hts8]

set_option maxHeartbeats 1000000 in
/-- Underpromotions round-trip through the codec. -/
theorem dec_enc_under (c : Bool) (qp : List String) (fs ts : Nat) (p : Nat)
    (hf : fs < 64) (ht : ts < 64) (hp : p = 2 ∨ p = 3 ∨ p = 4)
    (hsh : PromoShape (rotRow c fs) (rotCol c fs) (rotRow c ts) (rotCol c ts)) :
    ∃ idx, encCore (rotRow c fs) (rotCol c fs) (rotRow c ts) (rotCol c ts) (some p) = some idx ∧
      idx < 4672 ∧ tensorToActionIdx c qp idx = some ⟨fs, ts, some p⟩ := by
  have hrecL := pyIdx_lettering c fs hf
  have hrecN := pyIdx_numbering c fs hf
  have hrecLt := pyIdx_lettering c ts ht
  have hrecNt := pyIdx_numbering c ts ht
  have hfs8 : fs / 8 * 8 + fs % 8 = fs := by omega
  have hts8 : ts / 8 * 8 + ts % 8 = ts := by omega
  have hr : rotRow c fs < 8 := rotRow_lt c fs hf
  have hco : rotCol c fs < 8 := rotCol_lt c fs hf
  have htr : rotRow c ts < 8 := rotRow_lt c ts ht
  have htc : rotCol c ts < 8 := rotCol_lt c ts ht
  generalize hR : rotRow c fs = r at *
  generalize hC : rotCol c fs = co at *
  generalize hTR : rotRow c ts = tr at *
  generalize hTC : rotCol c ts = tc at *
  obtain ⟨hdr, hdc⟩ := hsh
  have hpi : promoIndex (some p) ≤ 2 ∧
      pyIdx [2, 3, 4] ((promoIndex (some p) : Nat) : Int) = some p := by
    rcases hp with rfl | rfl | rfl <;> exact ⟨by decide, by decide⟩
  obtain ⟨hpi2, hpiIdx⟩ := hpi
  unfold encCore
  rw [if_pos (by omega)]
  rw [if_pos (by rcases hp with rfl | rfl | rfl <;> simp)]
  generalize hPI : promoIndex (some p) = pi at *
  rcases lt_trichotomy co tc with hcmp | hcmp | hcmp
  · -- diagonal-right capture in the rotated frame
    rw [if_pos hcmp]
    refine ⟨_, rfl, by omega, ?_⟩
    have e1 : ((64 + (pi * 3 + 1)) * 64 + r * 8 + co) / 64 = 64 + (pi * 3 + 1) := by omega
    have e2 : ((64 + (pi * 3 + 1)) * 64 + r * 8 + co) % 64 / 8 = r := by omega
    have e3 : ((64 + (pi * 3 + 1)) * 64 + r * 8 + co) % 64 % 8 = co := by omega
    have hdest : decodedDest ((64 + (pi * 3 + 1)) * 64 + r * 8 + co) = ((tc : Int), (tr : Int)) := by
      unfold decodedDest
      rw [e1, e2, e3, if_neg (by omega), if_neg (by omega)]
      rw [if_pos (by omega : (64 + (pi * 3 + 1) - 64) % 3 = 1)]
      simp only [Prod.mk.injEq]
      constructor <;> omega
    unfold tensorToActionIdx
    rw [e2, e3, hdest]
    rw [hrecL, hrecN]
    simp only
    rw [hrecLt, hrecNt]
    simp only
    rw [e1, if_neg (by omega), if_neg (by omega)]
    rw [(by omega : 64 + (pi * 3 + 1) - 64 = pi * 3 + 1), (by omega : (pi * 3 + 1) / 3 = pi)]
    rw [hpiIdx, Option.map_some']
    rw [hfs8, hts8]
  · -- forward promotion
    rw [if_neg (by omega), if_neg (by omega)]
    refine ⟨_, rfl, by omega, ?_⟩
    have e1 : ((64 + (pi * 3 + 0)) * 64 + r * 8 + co) / 64 = 64 + (pi * 3 + 0) := by omega
    have e2 : ((64 + (pi * 3 + 0)) * 64 + r * 8 + co) % 64 / 8 = r := by omega
    have e3 : ((64 + (pi * 3 + 0)) * 64 + r * 8 + co) % 64 % 8 = co := by omega
    have hdest : decodedDest ((64 + (pi * 3 + 0)) * 64 + r * 8 + co) = ((tc : Int), (tr : Int)) := by
      unfold decodedDest
      rw [e1, e2, e3, if_neg (by omega), if_neg (by omega)]
      rw [if_neg (by omega : ¬(64 + (pi * 3 + 0) - 64) % 3 = 1)]
      rw [if_neg (by omega : ¬(64 + (pi * 3 + 0) - 64) % 3 = 2)]
      simp only [Prod.mk.injEq]
      constructor <;> omega
    unfold tensorToActionIdx
    rw [e2, e3, hdest]
    rw [hrecL, hrecN]
    simp only
    rw [hrecLt, hrecNt]
    simp only
    rw [e1, if_neg (by omega), if_neg (by omega)]
    rw [(by omega : 64 + (pi * 3 + 0) - 64 = pi * 3 + 0), (by omega : (pi * 3 + 0) / 3 = pi)]
    rw [hpiIdx, Option.map_some']
    rw [hfs8, hts8]
  · -- diagonal-left capture in the rotated frame
    rw [if_neg (by omega), if_pos hcmp]
    refine ⟨_, rfl, by omega, ?_⟩
    have e1 : ((64 + (pi * 3 + 2)) * 64 + r * 8 + co) / 64 = 64 + (pi * 3 + 2) := by omega
    have e2 : ((64 + (pi * 3 + 2)) * 64 + r * 8 + co) % 64 / 8 = r := by omega
    have e3 : ((64 + (pi * 3 + 2)) * 64 + r * 8 + co) % 64 % 8 = co := by omega
    have hdest : decodedDest ((64 + (pi * 3 + 2)) * 64 + r * 8 + co) = ((tc : Int), (tr : Int)) := by
      unfold decodedDest
      rw [e1, e2, e3, if_neg (by omega), if_neg (by omega)]
      rw [if_neg (by omega : ¬(64 + (pi * 3 + 2) - 64) % 3 = 1)]
      rw [if_pos (by omega : (64 + (pi * 3 + 2) - 64) % 3 = 2)]
      simp only [Prod.mk.injEq]
      constructor <;> omega
    unfold tensorToActionIdx
    rw [e2, e3, hdest]
    rw [hrecL, hrecN]
    simp only
    rw [hrecLt, hrecNt]
    simp only
    rw [e1, if_neg (by omega), if_neg (by omega)]
    rw [(by omega : 64 + (pi * 3 + 2) - 64 = pi * 3 + 2), (by omega : (pi * 3 + 2) / 3 = pi)]
    rw [hpiIdx, Option.map_some']
    rw [hfs8, hts8]

/-- Index-level round trip: a legal-shaped move encodes to an index below
4672 that decodes back to exactly the move, given a correct
queen-promotion side set. -/
theorem dec_enc (c : Bool) (m : Move) (qp : List String)
    (h : LegalShapeFor c m) (hqp : QpCorrect m qp) :
    ∃ idx, actionToTensorIdx m c = some idx ∧ idx < 4672 ∧
      tensorToActionIdx c qp idx = some m := by
  obtain ⟨fs, ts, promo⟩ := m
  obtain ⟨hf, ht, hsh⟩ := h
  unfold QpCorrect at hqp
  unfold actionToTensorIdx
  by_cases h5 : promo = some 5
  · subst h5
    rw [if_neg (by simp), if_pos rfl] at hsh
    exact dec_enc_queen c qp fs ts (some 5) hf ht (Or.inr rfl) hqp hsh
  by_cases hn : promo = none
  · subst hn
    rw [if_pos rfl] at hsh
    rcases hsh with hq | hk
    · exact dec_enc_queen c qp fs ts none hf ht (Or.inl rfl) hqp hq
    · exact dec_enc_knight c qp fs ts hf ht hk
  · rw [if_neg hn, if_neg h5] at hsh
    obtain ⟨hp, hP⟩ := hsh
    obtain ⟨p, rfl⟩ : ∃ p, promo = some p := by
      cases promo with
      | none => exact absurd rfl hn
      | some p => exact ⟨p, rfl⟩
    have hp3 : p = 2 ∨ p = 3 ∨ p = 4 := by
      rcases hp with h | h | h <;> simp only [Option.some.injEq] at h <;> omega
    exact dec_enc_under c qp fs ts p hf ht hp3 hP

/-- In-range positive or negative Python index succeeds. -/
theorem pyIdx_isSome {α : Type} (l : List α) (i : Int)
    (h1 : -(l.length : Int) ≤ i) (h2 : i < l.length) : (pyIdx l i).isSome = true := by
  unfold pyIdx
  by_cases h0 : 0 ≤ i
  · rw [if_pos h0]
    have hlt : i.toNat < l.length := by omega
    simp [List.getElem?_eq_getElem hlt]
  · rw [if_neg h0, if_pos (by omega)]
    have hlt : (i + l.length).toNat < l.length := by omega
    simp [List.getElem?_eq_getElem hlt]

/-- Out-of-range (too large) Python index raises. -/
theorem pyIdx_none_of_ge {α : Type} (l : List α) (i : Int) (h : (l.length : Int) ≤ i) :
    pyIdx l i = none := by
  unfold pyIdx
  rw [if_pos (by omega)]
  rw [List.get?_eq_none]
  omega

theorem letteringL_length (c : Bool) : (letteringL c).length = 8 := by cases c <;> rfl

theorem numberingL_length (c : Bool) : (numberingL c).length = 8 := by cases c <;> rfl

/-- Row/col reads (always in `[0,8)`) of the decoder succeed. -/
theorem pyIdx_rowcol : ∀ (c : Bool) (i : Nat), i < 8 →
    (pyIdx (letteringL c) (i : Int)).isSome = true ∧
      (pyIdx (numberingL c) (i : Int)).isSome = true := by decide

/-- Componentwise bounds of the decoder's `dir` list. -/
theorem dirList_getD_bounds : ∀ j, j < 8 →
    -1 ≤ (dirList.getD j (0, 0)).1 ∧ (dirList.getD j (0, 0)).1 ≤ 1 ∧
      -1 ≤ (dirList.getD j (0, 0)).2 ∧ (dirList.getD j (0, 0)).2 ≤ 1 := by decide

/-- Componentwise bounds of the decoder's `knight_moves` list. -/
theorem knightList_getD_bounds : ∀ j, j < 8 →
    -2 ≤ (knightList.getD j (0, 0)).1 ∧ (knightList.getD j (0, 0)).1 ≤ 2 ∧
      -2 ≤ (knightList.getD j (0, 0)).2 ∧ (knightList.getD j (0, 0)).2 ≤ 2 := by decide

/-- The reconstructed destination never lies below `-8` in either
coordinate (so Python negative indexing always wraps rather than
raising). -/
theorem decodedDest_lower (idx : Nat) :
    -8 ≤ (decodedDest idx).1 ∧ -8 ≤ (decodedDest idx).2 := by
  unfold decodedDest
  by_cases h1 : idx / 64 < 56
  · rw [if_pos h1]
    obtain ⟨b1, b2, b3, b4⟩ := dirList_getD_bounds (idx / 64 / 7) (by omega)
    have hc : (0 : Int) ≤ ((idx % 64 % 8 : Nat) : Int) := Int.natCast_nonneg _
    have hrw : (0 : Int) ≤ ((idx % 64 / 8 : Nat) : Int) := Int.natCast_nonneg _
    have hs1 : (0 : Int) ≤ ((idx / 64 % 7 : Nat) : Int) := Int.natCast_nonneg _
    have hs2 : ((idx / 64 % 7 : Nat) : Int) ≤ 6 := by omega
    constructor
    · simp only
      nlinarith
    · simp only
      nlinarith
  · rw [if_neg h1]
    by_cases h2 : idx / 64 < 64
    · rw [if_pos h2]
      obtain ⟨b1, b2, b3, b4⟩ := knightList_getD_bounds (idx / 64 - 56) (by omega)
      constructor <;> simp only <;> omega
    · rw [if_neg h2]
      constructor
      · split <;> simp only <;> omega
      · simp only; omega

/-- Decoding the same index under two different queen-promotion sets
yields the same squares; the promotions agree except possibly between
`none` and queen (the only effect of the set). -/
theorem dec_qp_agree (c : Bool) (qp1 qp2 : List String) (idx : Nat) (a b : Move)
    (ha : tensorToActionIdx c qp1 idx = some a) (hb : tensorToActionIdx c qp2 idx = some b) :
    a.from_square = b.from_square ∧ a.to_square = b.to_square ∧
      (a.promotion = b.promotion ∨
        ((a.promotion = none ∨ a.promotion = some 5) ∧
          (b.promotion = none ∨ b.promotion = some 5))) := by
  unfold tensorToActionIdx at ha hb
  cases h1 : pyIdx (letteringL c) ((idx % 64 % 8 : Nat) : Int) with
  | none => rw [h1] at ha; exact absurd ha (by simp)
  | some ff =>
  cases h2 : pyIdx (numberingL c) ((idx % 64 / 8 : Nat) : Int) with
  | none => rw [h1, h2] at ha; exact absurd ha (by simp)
  | some fr =>
  cases h3 : pyIdx (letteringL c) (decodedDest idx).1 with
  | none => rw [h1, h2, h3] at ha; exact absurd ha (by simp)
  | some tf =>
  cases h4 : pyIdx (numberingL c) (decodedDest idx).2 with
  | none => rw [h1, h2, h3, h4] at ha; exact absurd ha (by simp)
  | some tr =>
  rw [h1, h2, h3, h4] at ha hb
  simp only at ha hb
  by_cases hq : idx / 64 < 56
  · rw [if_pos hq] at ha hb
    by_cases hm1 : uciOf (fr * 8 + ff) (tr * 8 + tf) (some 5) ∈ qp1 <;>
      by_cases hm2 : uciOf (fr * 8 + ff) (tr * 8 + tf) (some 5) ∈ qp2 <;>
      [rw [if_pos hm1] at ha; rw [if_pos hm1] at ha; rw [if_neg hm1] at ha;
        rw [if_neg hm1] at ha] <;>
      [rw [if_pos hm2] at hb; rw [if_neg hm2] at hb; rw [if_pos hm2] at hb;
        rw [if_neg hm2] at hb] <;>
      obtain ⟨rfl⟩ := Option.some_inj.mp ha <;>
      obtain ⟨rfl⟩ := Option.some_inj.mp hb <;>
      simp
  · rw [if_neg hq] at ha hb
    by_cases hk : idx / 64 < 64
    · rw [if_pos hk] at ha hb
      obtain ⟨rfl⟩ := Option.some_inj.mp ha
      obtain ⟨rfl⟩ := Option.some_inj.mp hb
      simp
    · rw [if_neg hk] at ha hb
      cases h5 : pyIdx [2, 3, 4] (((idx / 64 - 64) / 3 : Nat) : Int) with
      | none => rw [h5] at ha; exact absurd ha (by simp)
      | some pc =>
        rw [h5, Option.map_some'] at ha hb
        obtain ⟨rfl⟩ := Option.some_inj.mp ha
        obtain ⟨rfl⟩ := Option.some_inj.mp hb
        simp

set_option maxHeartbeats 1000000 in
/-- Decode behaviour on the reconstructed destination: a coordinate `≥ 8`
raises (string `IndexError`); for an index in `[0,4672)` whose
destination coordinates are both `< 8` the decode succeeds — in
particular a negative coordinate wraps instead of raising. -/
theorem dec_offboard (c : Bool) (qp : List String) (idx : Nat) :
    (8 ≤ (decodedDest idx).1 ∨ 8 ≤ (decodedDest idx).2 →
      tensorToActionIdx c qp idx = none) ∧
    (idx < 4672 → (decodedDest idx).1 < 8 → (decodedDest idx).2 < 8 →
      (tensorToActionIdx c qp idx).isSome = true) := by
  obtain ⟨hc1, hc2⟩ := pyIdx_rowcol c (idx % 64 % 8) (by omega)
  obtain ⟨hr1, hr2⟩ := pyIdx_rowcol c (idx % 64 / 8) (by omega)
  obtain ⟨ff, h1⟩ := Option.isSome_iff_exists.mp hc1
  obtain ⟨fr, h2⟩ := Option.isSome_iff_exists.mp hr2
  constructor
  · intro hoff
    unfold tensorToActionIdx
    rcases hoff with hoff | hoff
    · rw [h1, h2, pyIdx_none_of_ge (letteringL c) (decodedDest idx).1
        (by rw [letteringL_length]; omega)]
    · rw [h1, h2, pyIdx_none_of_ge (numberingL c) (decodedDest idx).2
        (by rw [numberingL_length]; omega)]
      cases pyIdx (letteringL c) (decodedDest idx).1 <;> rfl
  · intro hidx hd1 hd2
    obtain ⟨hlo1, hlo2⟩ := decodedDest_lower idx
    have ht1 : (pyIdx (letteringL c) (decodedDest idx).1).isSome = true :=
      pyIdx_isSome _ _ (by rw [letteringL_length]; omega) (by rw [letteringL_length]; omega)
    have ht2 : (pyIdx (numberingL c) (decodedDest idx).2).isSome = true :=
      pyIdx_isSome _ _ (by rw [numberingL_length]; omega) (by rw [numberingL_length]; omega)
    obtain ⟨tf, h3⟩ := Option.isSome_iff_exists.mp ht1
    obtain ⟨tr, h4⟩ := Option.isSome_iff_exists.mp ht2
    unfold tensorToActionIdx
    rw [h1, h2, h3, h4]
    simp only
    by_cases hq : idx / 64 < 56
    · rw [if_pos hq]
      by_cases hm : uciOf (fr * 8 + ff) (tr * 8 + tf) (some 5) ∈ qp
      · rw [if_pos hm]; rfl
      · rw [if_neg hm]; rfl
    · rw [if_neg hq]
      by_cases hk : idx / 64 < 64
      · rw [if_pos hk]; rfl
      · rw [if_neg hk]
        have hp : (pyIdx [2, 3, 4] (((idx / 64 - 64) / 3 : Nat) : Int)).isSome = true := by
          apply pyIdx_isSome
          · simp only [List.length_cons, List.length_nil]
            omega
          · simp only [List.length_cons, List.length_nil]
            omega
        obtain ⟨pc, h5⟩ := Option.isSome_iff_exists.mp hp
        rw [h5, Option.map_some']
        rfl

theorem promoIndex_le (o : Option Nat) : promoIndex o ≤ 2 := by
  unfold promoIndex
  split <;> omega

set_option maxHeartbeats 1000000 in
/-- Encoding never raises on a valid displacement and always writes
inside `[0, 4672)` (plane at most 72). -/
theorem enc_total (c : Bool) (m : Move) (h : ValidDisplacement c m) :
    ∃ idx, actionToTensorIdx m c = some idx ∧ idx < 4672 := by
  obtain ⟨fs, ts, promo⟩ := m
  obtain ⟨hf, ht, hpromo, hsh⟩ := h
  have hr : rotRow c fs < 8 := rotRow_lt c fs hf
  have hco : rotCol c fs < 8 := rotCol_lt c fs hf
  have htr : rotRow c ts < 8 := rotRow_lt c ts ht
  have htc : rotCol c ts < 8 := rotCol_lt c ts ht
  unfold actionToTensorIdx
  dsimp only
  generalize hR : rotRow c fs = r at *
  generalize hC : rotCol c fs = co at *
  generalize hTR : rotRow c ts = tr at *
  generalize hTC : rotCol c ts = tc at *
  have hpile := promoIndex_le promo
  rcases hsh with ⟨hne, hline⟩ | hK
  · unfold encCore
    rw [if_pos (by tauto)]
    by_cases hnbr : promo = some 2 ∨ promo = some 3 ∨ promo = some 4
    · rw [if_pos hnbr]
      refine ⟨_, rfl, ?_⟩
      have : (if co < tc then 1 else if tc < co then 2 else 0) ≤ 2 := by
        split
        · omega
        · split <;> omega
      omega
    · rw [if_neg hnbr]
      have hnz : ¬(((tc : Int) - co) = 0 ∧ ((tr : Int) - r) = 0) := by
        rintro ⟨h1, h2⟩; exact hne ⟨by omega, by omega⟩
      obtain ⟨d, hd, hd8, _⟩ := dirIndex_of_signs _ _ hnz
      rw [hd, Option.map_some']
      exact ⟨_, rfl, by omega⟩
  · unfold KnightShape at hK
    obtain ⟨k, hk, hk8, _, ha, hb, hab⟩ := knight_facts _ _ hK
    unfold encCore
    rw [if_neg (by omega)]
    rw [hk, Option.map_some']
    exact ⟨_, rfl, by omega⟩

/-- The queen-promotion dictionary `actionsToTensor` would build for a
single move. -/
def canonQp (m : Move) : List String :=
  if m.promotion = some 5 then [m.uci] else []

theorem qpCorrect_canon (m : Move) : QpCorrect m (canonQp m) := by
  obtain ⟨fs, ts, promo⟩ := m
  unfold QpCorrect canonQp Move.uci
  by_cases h : promo = some 5
  · subst h
    simp
  · simp only [h, if_false, if_neg h]
    simp [h]

/-- C1. For every legal move `m` of a reachable position (its
displacement facts captured by `LegalShapeFor`) and either color as
mover, decoding the encoded action tensor with the correct
queen-promotion side set returns exactly `[m]`, queen promotion
re-attached via the set. -/
theorem C1_encode_decode_roundtrip (c : Bool) (m : Move) (qp : List String)
    (h : LegalShapeFor c m) (hqp : QpCorrect m qp) :
    ∃ t, actionToTensor m c 1 = some t ∧ tensorToAction t c qp = some [m] := by
  obtain ⟨idx, he, hlt, hd⟩ := dec_enc c m qp h hqp
  refine ⟨singleTensor idx 1, ?_, ?_⟩
  · rw [actionToTensor, he, Option.map_some']
  · rw [tensorToAction, nonzeroIdx_single idx 1 one_ne_zero (by omega)]
    simp [List.mapM.loop, hd]

theorem C1_encode_decode_roundtrip_witness :
    LegalShapeFor true ⟨3, 43, none⟩ ∧ QpCorrect ⟨3, 43, none⟩ [] ∧
      ∃ t, actionToTensor ⟨3, 43, none⟩ true 1 = some t ∧
        tensorToAction t true [] = some [⟨3, 43, none⟩] :=
  ⟨by decide, by decide,
    C1_encode_decode_roundtrip true ⟨3, 43, none⟩ [] (by decide) (by decide)⟩

/-- C2. Over the legal moves of one position for one mover (distinct
legal moves of one position share a from-square only with equal
promotion-ness, since a promoting piece is a pawn on the pre-promotion
rank, all of whose moves promote), encoding is injective: two distinct
moves get distinct indices in `[0, 4672)`. -/
theorem C2_encode_injective (c : Bool) (m1 m2 : Move)
    (h1 : LegalShapeFor c m1) (h2 : LegalShapeFor c m2)
    (hpos : m1.from_square = m2.from_square → (m1.promotion.isSome ↔ m2.promotion.isSome))
    (hne : m1 ≠ m2) :
    ∃ i1 i2, actionToTensorIdx m1 c = some i1 ∧ actionToTensorIdx m2 c = some i2 ∧
      i1 < 4672 ∧ i2 < 4672 ∧ i1 ≠ i2 := by
  obtain ⟨i1, he1, hl1, hd1⟩ := dec_enc c m1 (canonQp m1) h1 (qpCorrect_canon m1)
  obtain ⟨i2, he2, hl2, hd2⟩ := dec_enc c m2 (canonQp m2) h2 (qpCorrect_canon m2)
  refine ⟨i1, i2, he1, he2, hl1, hl2, ?_⟩
  rintro rfl
  obtain ⟨hfr, hto, hpr⟩ := dec_qp_agree c (canonQp m1) (canonQp m2) i1 m1 m2 hd1 hd2
  have hiff := hpos hfr
  obtain ⟨f1, t1, p1⟩ := m1
  obtain ⟨f2, t2, p2⟩ := m2
  simp only at hfr hto hiff hpr
  subst hfr
  subst hto
  rcases hpr with rfl | ⟨hp1, hp2⟩
  · exact hne rfl
  · rcases hp1 with rfl | rfl <;> rcases hp2 with rfl | rfl
    · exact hne rfl
    · simp at hiff
    · simp at hiff
    · exact hne rfl

theorem C2_encode_injective_witness :
    LegalShapeFor true ⟨3, 43, none⟩ ∧ LegalShapeFor true ⟨3, 35, none⟩ ∧
      (⟨3, 43, none⟩ : Move) ≠ ⟨3, 35, none⟩ ∧
      ∃ i1 i2, actionToTensorIdx ⟨3, 43, none⟩ true = some i1 ∧
        actionToTensorIdx ⟨3, 35, none⟩ true = some i2 ∧
        i1 < 4672 ∧ i2 < 4672 ∧ i1 ≠ i2 :=
  ⟨by decide, by decide, by decide,
    C2_encode_injective true ⟨3, 43, none⟩ ⟨3, 35, none⟩ (by decide) (by decide)
      (fun _ => Iff.rfl) (by decide)⟩

/-- C4, counterexample. Index 0 reconstructs destination row `-1`
(off the board), yet decode does not fail: Python negative indexing
silently wraps it to the opposite edge, returning the move a8a1. -/
theorem C4_counterexample :
    (decodedDest 0).2 = -1 ∧ tensorToActionIdx true [] 0 = some ⟨56, 0, none⟩ :=
  ⟨by decide, by decide⟩

/-- C4, amended. Decode fails (string `IndexError`) exactly on
reconstructed destination coordinates `≥ 8`; an index below 4672 whose
reconstructed destination coordinates are `< 8` — including negative
ones — decodes successfully, the negative coordinates wrapping to
on-board squares. -/
theorem C4_decode_offboard (c : Bool) (qp : List String) (idx : Nat) :
    (8 ≤ (decodedDest idx).1 ∨ 8 ≤ (decodedDest idx).2 →
      tensorToActionIdx c qp idx = none) ∧
    (idx < 4672 → (decodedDest idx).1 < 8 → (decodedDest idx).2 < 8 →
      (tensorToActionIdx c qp idx).isSome = true) :=
  dec_offboard c qp idx

theorem C4_decode_offboard_witness :
    tensorToActionIdx true [] 1287 = none ∧
      (tensorToActionIdx true [] 0).isSome = true :=
  ⟨(C4_decode_offboard true [] 1287).1 (by decide),
    (C4_decode_offboard true [] 0).2 (by decide) (by decide) (by decide)⟩

/-- C9. The move d1d6 (from square 3 to square 43) for white encodes
to the queen-like plane with direction N (index 0) and distance 5, i.e.
plane `0*7+(5-1) = 4`, single set entry at index `4*64 + 7*8 + 3`. -/
theorem C9_d1d6_encoding :
    actionToTensorIdx ⟨3, 43, none⟩ true = some ((0 * 7 + (5 - 1)) * 64 + 7 * 8 + 3) ∧
      (actionToTensor ⟨3, 43, none⟩ true 1).map nonzeroIdx =
        some [(0 * 7 + (5 - 1)) * 64 + 7 * 8 + 3] := by
  constructor
  · decide
  · rw [actionToTensor,
      (by decide : actionToTensorIdx ⟨3, 43, none⟩ true =
        some ((0 * 7 + (5 - 1)) * 64 + 7 * 8 + 3)),
      Option.map_some', Option.map_some',
      nonzeroIdx_single _ _ one_ne_zero (by omega)]

/-- C10, counterexample. With supplied weight 0 the returned tensor
has no nonzero entry at all, not exactly one. -/
theorem C10_counterexample :
    (actionToTensor ⟨3, 43, none⟩ true 0).map (fun t => (nonzeroIdx t).length) = some 0 := by
  rw [actionToTensor,
    (by decide : actionToTensorIdx ⟨3, 43, none⟩ true =
      some ((0 * 7 + (5 - 1)) * 64 + 7 * 8 + 3)),
    Option.map_some', Option.map_some', nonzeroIdx_single_zero]
  rfl

/-- C10, amended. For every move with a valid piece displacement and
any nonzero weight, `actionToTensor` succeeds and yields the tensor with
exactly one nonzero entry, of value `prob`, at an index in `[0, 4672)`. -/
theorem C10_single_entry (c : Bool) (m : Move) (prob : ℚ)
    (h : ValidDisplacement c m) (hp : prob ≠ 0) :
    ∃ idx t, actionToTensor m c prob = some t ∧ idx < 4672 ∧
      nonzeroIdx t = [idx] ∧ t idx = prob := by
  obtain ⟨idx, he, hlt⟩ := enc_total c m h
  refine ⟨idx, singleTensor idx prob, ?_, hlt, ?_, ?_⟩
  · rw [actionToTensor, he, Option.map_some']
  · exact nonzeroIdx_single idx prob hp (by omega)
  · simp [singleTensor]

theorem C10_single_entry_witness :
    ValidDisplacement true ⟨3, 43, none⟩ ∧ (1 : ℚ) ≠ 0 ∧
      ∃ idx t, actionToTensor ⟨3, 43, none⟩ true 1 = some t ∧ idx < 4672 ∧
        nonzeroIdx t = [idx] ∧ t idx = 1 :=
  ⟨by decide, one_ne_zero,
    C10_single_entry true ⟨3, 43, none⟩ 1 (by decide) one_ne_zero⟩

/-- C3, code evaluation. The meta planes are boolean-typed
(`dtype=torch.bool`): the no-progress plane after a move with half-move
clock 7 is the same all-ones flag as after clock 1 — it broadcasts 1,
not 7 — and likewise the total-ply-count plane; the integer magnitude is
truncated. -/
theorem C3_counter_planes_truncated :
    noProgressPlane 7 = noProgressPlane 1 ∧ totalMovesPlane 7 = totalMovesPlane 1 ∧
      noProgressPlane 7 0 0 = true :=
  ⟨rfl, rfl, rfl⟩

/-- C5. A move absent from the legal-move set makes `move_piece`
raise `ValueError("Invalid move")` before any state mutation: the board
and both perspective tensors are returned unchanged. -/
theorem C5_invalid_move_rejected {B : Type} (e : Engine B) (st : CTState B) (m : Move)
    (h : m ∉ e.legalMoves st.board) :
    movePiece e st m = (st, some "Invalid move") := by
  unfold movePiece
  rw [if_neg h]

/-- A trivial rules engine over a unit board, used to instantiate the
state-level theorems at a concrete input. -/
def trivEngine : Engine Unit :=
  { legalMoves := fun _ => []
    push := fun _ _ => ()
    boardTensor := fun _ => List.replicate 12 zeroPlane
    isRepetition2 := fun _ => false
    isRepetition3 := fun _ => false
    moveStackLen := fun _ => 0
    halfmoveClock := fun _ => 0
    kingsideCastlingW := fun _ => true
    queensideCastlingW := fun _ => true
    kingsideCastlingB := fun _ => true
    queensideCastlingB := fun _ => true }

theorem C5_invalid_move_rejected_witness :
    (⟨3, 43, none⟩ : Move) ∉ trivEngine.legalMoves () ∧
      movePiece trivEngine ⟨(), [], []⟩ ⟨3, 43, none⟩ =
        (⟨(), [], []⟩, some "Invalid move") :=
  ⟨by simp [trivEngine],
    C5_invalid_move_rejected trivEngine ⟨(), [], []⟩ ⟨3, 43, none⟩ (by simp [trivEngine])⟩

/-- Dropping the last `M + L = 21` channels and prepending a fresh
14-channel frame shifts every remaining history frame down by one. -/
theorem frameAt_shift (A rep L : List Plane) (j : Nat)
    (hA : A.length = 14) (hrep : rep.length = 119) (hj1 : 1 ≤ j) (hj8 : j < 8) :
    frameAt (A ++ rep.take (rep.length - 21) ++ L) j = frameAt rep (j - 1) := by
  unfold frameAt
  rw [hrep]
  rw [List.append_assoc, List.drop_append_eq_append_drop,
    List.drop_eq_nil_of_le (by omega), List.nil_append, hA,
    List.drop_append_eq_append_drop, List.length_take, hrep]
  have hmin : min (119 - 21) 119 = 98 := by omega
  rw [hmin]
  rw [List.take_append_eq_append_take]
  have hlen : (List.drop (14 * j - 14) (List.take (119 - 21) rep)).length = 98 - (14 * j - 14) := by
    rw [List.length_drop, List.length_take, hrep]
    omega
  rw [hlen]
  have h0 : 14 - (98 - (14 * j - 14)) = 0 := by omega
  rw [h0, List.take_zero, List.append_nil]
  rw [List.drop_take, List.take_take]
  have h1 : min 14 (119 - 21 - (14 * j - 14)) = 14 := by omega
  rw [h1]
  have h2 : 14 * (j - 1) = 14 * j - 14 := by omega
  rw [h2]

/-- In the freshly started tensor every history frame past the current
one reads from the `M*(T-1)` zero block. -/
theorem frameAt_start (A L : List Plane) (j : Nat)
    (hA : A.length = 14) (hj1 : 1 ≤ j) (hj8 : j < 8) :
    frameAt (A ++ List.replicate (14 * 7) zeroPlane ++ L) j = zeroFrame := by
  unfold frameAt zeroFrame
  rw [List.append_assoc, List.drop_append_eq_append_drop,
    List.drop_eq_nil_of_le (by omega), List.nil_append, hA,
    List.drop_append_eq_append_drop, List.drop_replicate, List.length_replicate]
  have h0 : 14 * j - 14 - 14 * 7 = 0 := by omega
  rw [h0, List.drop_zero]
  rw [List.take_append_eq_append_take, List.take_replicate, List.length_replicate]
  have h1 : min 14 (14 * 7 - (14 * j - 14)) = 14 := by omega
  have h2 : 14 - (14 * 7 - (14 * j - 14)) = 0 := by omega
  rw [h1, h2, List.take_zero, List.append_nil]

/-- Shape-and-zero-history invariant after `k` applied plies. -/
def RepInv {B : Type} (st : CTState B) (k : Nat) : Prop :=
  st.whiteRep.length = 119 ∧ st.blackRep.length = 119 ∧
    ∀ j, k < j → j < 8 → frameAt st.whiteRep j = zeroFrame ∧ frameAt st.blackRep j = zeroFrame

theorem repInv_start {B : Type} (e : Engine B)
    (hWF : ∀ b, (e.boardTensor b).length = 12) (b0 : B) :
    RepInv (startBoardState e b0) 0 := by
  unfold RepInv startBoardState
  have hA : (e.boardTensor b0 ++ [zeroPlane, zeroPlane]).length = 14 := by
    simp [hWF]
  have hAb : (((e.boardTensor b0 ++ [zeroPlane, zeroPlane]).drop 6).take 6 ++
      (e.boardTensor b0 ++ [zeroPlane, zeroPlane]).take 6 ++ [zeroPlane, zeroPlane]).length = 14 := by
    simp [hWF]
  refine ⟨by simp [hWF], by simp [hWF], ?_⟩
  intro j hj0 hj8
  exact ⟨frameAt_start _ _ j hA (by omega) hj8, frameAt_start _ _ j hAb (by omega) hj8⟩

theorem repInv_step {B : Type} (e : Engine B)
    (hWF : ∀ b, (e.boardTensor b).length = 12) (st : CTState B) (m : Move) (k : Nat)
    (h : RepInv st k) :
    RepInv ((movePiece e st m).1) (k + 1) := by
  obtain ⟨hw, hb, hfr⟩ := h
  unfold movePiece
  by_cases hleg : m ∈ e.legalMoves st.board
  · rw [if_pos hleg]
    have hcur : (e.boardTensor (e.push st.board m) ++
        [boolPlane (e.isRepetition2 (e.push st.board m)),
         boolPlane (e.isRepetition3 (e.push st.board m))]).length = 14 := by
      simp [hWF]
    refine ⟨?_, ?_, ?_⟩
    · simp only [List.length_append, List.length_take, List.length_cons, List.length_nil,
        hw, hcur]
      omega
    · simp only [List.length_append, List.length_take, List.length_drop, List.length_cons,
        List.length_nil, hb, hcur]
      omega
    · intro j hj hj8
      refine ⟨?_, ?_⟩
      · rw [frameAt_shift _ _ _ j hcur hw (by omega) hj8]
        exact (hfr (j - 1) (by omega) (by omega)).1
      · rw [frameAt_shift _ _ _ j (by
          simp only [List.length_append, List.length_take, List.length_drop, hcur]
          omega) hb (by omega) hj8]
        exact (hfr (j - 1) (by omega) (by omega)).2
  · rw [if_neg hleg]
    exact ⟨hw, hb, fun j hj hj8 => hfr j (by omega) hj8⟩

theorem repInv_applySeq {B : Type} (e : Engine B)
    (hWF : ∀ b, (e.boardTensor b).length = 12) :
    ∀ (ms : List Move) (st st' : CTState B) (k : Nat),
      applySeq e st ms = some st' → RepInv st k → RepInv st' (k + ms.length) := by
  intro ms
  induction ms with
  | nil =>
    intro st st' k h hInv
    unfold applySeq at h
    obtain rfl := Option.some_inj.mp h
    simpa using hInv
  | cons m ms ih =>
    intro st st' k h hInv
    unfold applySeq at h
    cases hmv : movePiece e st m with
    | mk st1 err =>
      rw [hmv] at h
      cases err with
      | none =>
        have h1 : RepInv st1 (k + 1) := by
          have := repInv_step e hWF st m k hInv
          rwa [hmv] at this
        have := ih st1 st' (k + 1) h h1
        simpa [Nat.add_assoc, Nat.add_comm 1 ms.length] using this
      | some s => exact absurd h (by simp)

/-- C7. Both perspective tensors have 119 channels after
`start_board`, the shape is preserved by every `move_piece` call, and
after `k < 8` applied plies the history frames `k+1 .. 7` are all-zero
in both perspective tensors. -/
theorem C7_shape_and_zero_history {B : Type} (e : Engine B)
    (hWF : ∀ b, (e.boardTensor b).length = 12) (b0 : B)
    (ms : List Move) (st' : CTState B)
    (h : applySeq e (startBoardState e b0) ms = some st') :
    st'.whiteRep.length = 119 ∧ st'.blackRep.length = 119 ∧
      (∀ m, ((movePiece e st' m).1).whiteRep.length = 119 ∧
        ((movePiece e st' m).1).blackRep.length = 119) ∧
      ∀ j, ms.length < j → j < 8 →
        frameAt st'.whiteRep j = zeroFrame ∧ frameAt st'.blackRep j = zeroFrame := by
  have hInv := repInv_applySeq e hWF ms (startBoardState e b0) st' 0 h (repInv_start e hWF b0)
  rw [Nat.zero_add] at hInv
  obtain ⟨hw, hb, hfr⟩ := hInv
  refine ⟨hw, hb, ?_, hfr⟩
  intro m
  have := repInv_step e hWF st' m ms.length ⟨hw, hb, hfr⟩
  exact ⟨this.1, this.2.1⟩

theorem C7_shape_and_zero_history_witness :
    (∀ b, (trivEngine.boardTensor b).length = 12) ∧
      applySeq trivEngine (startBoardState trivEngine ()) [] =
        some (startBoardState trivEngine ()) ∧
      (startBoardState trivEngine ()).whiteRep.length = 119 ∧
      frameAt (startBoardState trivEngine ()).whiteRep 3 = zeroFrame := by
  have hWF : ∀ b, (trivEngine.boardTensor b).length = 12 := fun _ => by
    simp [trivEngine]
  have h := C7_shape_and_zero_history trivEngine hWF () [] (startBoardState trivEngine ()) rfl
  exact ⟨hWF, rfl, h.1, (h.2.2.2 3 (by decide) (by decide)).1⟩

/-- C8. The perspective transform of `get_representation` is an
involution for each color: flipping any channel-list tensor twice along
the rank axis (first color) or twice along the file axis (second color)
restores it. -/
theorem C8_perspective_involution (rep : List Plane) :
    flipRankTensor (flipRankTensor rep) = rep ∧ flipFileTensor (flipFileTensor rep) = rep := by
  constructor
  · unfold flipRankTensor
    rw [List.map_map]
    have hid : ((fun (p : Plane) => fun (r f : Fin 8) => p ⟨7 - (r : Nat), by omega⟩ f) ∘
        (fun (p : Plane) => fun (r f : Fin 8) => p ⟨7 - (r : Nat), by omega⟩ f)) = id := by
      funext p r f
      simp only [Function.comp_apply, id_eq]
      congr 1
      obtain ⟨rv, hrv⟩ := r
      simp only [Fin.mk.injEq]
      omega
    rw [hid, List.map_id]
  · unfold flipFileTensor
    rw [List.map_map]
    have hid : ((fun (p : Plane) => fun (r f : Fin 8) => p r ⟨7 - (f : Nat), by omega⟩) ∘
        (fun (p : Plane) => fun (r f : Fin 8) => p r ⟨7 - (f : Nat), by omega⟩)) = id := by
      funext p r f
      simp only [Function.comp_apply, id_eq]
      congr 1
      obtain ⟨fv, hfv⟩ := f
      simp only [Fin.mk.injEq]
      omega
    rw [hid, List.map_id]

/-- C6, counterexample. `actionsToTensor` on the two distinct moves
e7e8 and e7e8q — which encode to the same index 12 for white — does not
abort: it returns successfully with the two weights silently summed to 2
at that index. -/
theorem C6_counterexample :
    (actionsToTensor [(⟨52, 60, none⟩, 1), (⟨52, 60, some 5⟩, 1)] true).map
      (fun r => r.1 12) = some 2 := by
  unfold actionsToTensor
  simp only [List.foldlM, actionToTensor,
    (by decide : actionToTensorIdx ⟨52, 60, none⟩ true = some 12),
    (by decide : actionToTensorIdx ⟨52, 60, some 5⟩ true = some 12),
    Option.map_some', Option.bind_eq_bind, Option.some_bind]
  simp [singleTensor]
  norm_num

/-- C6, amended. When two moves encode to the same action index,
`actionsToTensor` silently adds both weights into that vector entry
instead of aborting. -/
theorem C6_collision_silently_merged (c : Bool) (m1 m2 : Move) (p1 p2 : ℚ) (idx : Nat)
    (h1 : actionToTensorIdx m1 c = some idx) (h2 : actionToTensorIdx m2 c = some idx) :
    (actionsToTensor [(m1, p1), (m2, p2)] c).map (fun r => r.1 idx) = some (p1 + p2) := by
  unfold actionsToTensor
  simp only [List.foldlM, actionToTensor, h1, h2, Option.map_some', Option.bind_eq_bind,
    Option.some_bind]
  simp [singleTensor]

theorem C6_collision_silently_merged_witness :
    actionToTensorIdx ⟨52, 60, none⟩ true = some 12 ∧
      actionToTensorIdx ⟨52, 60, some 5⟩ true = some 12 ∧
      (actionsToTensor [(⟨52, 60, none⟩, (1 : ℚ)), (⟨52, 60, some 5⟩, 1)] true).map
        (fun r => r.1 12) = some (1 + 1) :=
  ⟨by decide, by decide,
    C6_collision_silently_merged true ⟨52, 60, none⟩ ⟨52, 60, some 5⟩ 1 1 12
      (by decide) (by decide)⟩
